import Mathlib

/-!
# Verification of the Bing search-retrieval pipeline

Shallow embedding of `gpt_researcher/retrievers/bing/bing.py`
(`BingSearch.__init__`, `BingSearch.get_api_key`, `BingSearch.search`).

The network is modelled by two oracles supplied to `search`:
* `fetchO : Nat → FetchOutcome` — the outcome of the paginated
  `requests.get` call issued on attempt number `k` (the offset sent with
  attempt `k` is `k * page_size`, so indexing by attempt number is faithful);
* `probeO : String → ProbeOutcome` — the outcome of the
  `requests.head(url, timeout=3, allow_redirects=True)` liveness probe.

The run is instrumented with an event trace (`Event.fetch offset`,
`Event.probe url`) recording every network call, so that temporal claims
(attempt ceiling, early termination, probe-at-most-once) are statable.
-/

namespace Bing

/-- One entry of `search_results["webPages"]["value"]`: the fields
`url`, `name`, `snippet` read by the loop body. -/
structure RawResult where
  url : String
  name : String
  snippet : String
deriving DecidableEq, Repr

/-- The dictionary appended to `filtered_results`:
`{"title": result["name"], "href": url_, "body": result["snippet"]}`. -/
structure SearchResult where
  title : String
  href : String
  body : String
deriving DecidableEq, Repr

/-- Outcome of one paginated `requests.get` against the Bing endpoint.
`raiseExc`: the call raised (network error) — note the source does not wrap
`requests.get` in a `try`. `respNone`: the call returned `None`
(the `if resp is None` guard). `parseError`: `json.loads(resp.text)` or the
`["webPages"]["value"]` lookup raised (malformed body, or an error body as
returned for a non-2xx response). `page rs`: a parsed list of raw results. -/
inductive FetchOutcome where
  | raiseExc : FetchOutcome
  | respNone : FetchOutcome
  | parseError : FetchOutcome
  | page : List RawResult → FetchOutcome
deriving DecidableEq

/-- Outcome of the `requests.head` liveness probe: a response with a status
code, or a raised exception (timeout, connection error, ...). -/
inductive ProbeOutcome where
  | status : Nat → ProbeOutcome
  | raiseExc : ProbeOutcome
deriving DecidableEq

/-- `r.status_code >= 400`, and every raised exception, count as a dead
link (both branches do `dropped_dead += 1; continue`). -/
def probeFails : ProbeOutcome → Bool
  | .status c => 400 ≤ c
  | .raiseExc => true

/-- A network call made during one invocation of `search`. -/
inductive Event where
  | fetch : Nat → Event
  | probe : String → Event
deriving DecidableEq, Repr

/-- The URLs probed, in order, in a trace. -/
def probeUrls : List Event → List String
  | [] => []
  | Event.probe u :: t => u :: probeUrls t
  | Event.fetch _ :: t => probeUrls t

/-- Number of upstream fetch requests in a trace. -/
def fetchCount : List Event → Nat
  | [] => 0
  | Event.fetch _ :: t => fetchCount t + 1
  | Event.probe _ :: t => fetchCount t

/-- The mutable locals of one `search` invocation: `filtered_results`,
`seen_urls` (a set, modelled as a duplicate-free list), `dropped_dead`,
`dropped_domain`. -/
structure SearchState where
  filtered : List SearchResult
  seen : List String
  droppedDead : Nat
  droppedDomain : Nat
deriving DecidableEq, Repr

/-- The initial state: `filtered_results = []`, `seen_urls = set()`,
`dropped_dead = 0`, `dropped_domain = 0`. -/
def initState : SearchState := ⟨[], [], 0, 0⟩

/-! ## String primitives used by the loop body -/

/-- `needle` occurs as a contiguous sublist of `hay`
(Python's `needle in hay` on strings, on the character level). -/
def subAt : List Char → List Char → Bool
  | needle, [] => needle.isEmpty
  | needle, c :: t => needle.isPrefixOf (c :: t) || subAt needle t

/-- Python `needle in hay` for strings. -/
def strContains (hay needle : String) : Bool :=
  subAt needle.toList hay.toList

/-- Python `s.lower()`. -/
def strLower (s : String) : String :=
  ⟨s.toList.map Char.toLower⟩

/-- Python `s.startswith(pre)`. -/
def strStartsWith (s pre : String) : Bool :=
  pre.toList.isPrefixOf s.toList

/-- The allow-list test of lines 88–92: `allowed` is set when some
`domain` in `query_domains` satisfies `domain.lower() in url_.lower()`. -/
def allowedByDomains (qd : List String) (u : String) : Bool :=
  qd.any (fun d => strContains (strLower u) (strLower d))

/-! ## The per-page filter/probe loop (lines 81–117) -/

/-- Result of running the `for result in results` loop on (a suffix of) a
page: the updated state, the probe events issued, and the candidates left
unexamined when the `break` at line 117 fired (empty otherwise). -/
structure PageOut where
  st : SearchState
  evs : List Event
  left : List RawResult
deriving DecidableEq, Repr

/-- The body of `for result in results` (lines 81–117), run to completion
or to the `break` that fires once `len(filtered_results) >= max_results`.
Stage order is the source's: youtube skip (no counter), allow-list
(`dropped_domain`), de-duplication via `seen_urls` (no counter), then the
liveness probe — issued only when the URL starts with `"http"`; a URL that
does not is appended without being probed. -/
def processPage (probeO : String → ProbeOutcome) (qd : List String)
    (maxResults : Nat) : List RawResult → SearchState → PageOut
  | [], st => ⟨st, [], []⟩
  | r :: rest, st =>
    let u := r.url
    if strContains u "youtube.com" then
      processPage probeO qd maxResults rest st
    else if !qd.isEmpty && !allowedByDomains qd u then
      processPage probeO qd maxResults rest
        { st with droppedDomain := st.droppedDomain + 1 }
    else if st.seen.contains u then
      processPage probeO qd maxResults rest st
    else
      let st1 := { st with seen := u :: st.seen }
      let pe : List Event := if strStartsWith u "http" then [Event.probe u] else []
      if strStartsWith u "http" && probeFails (probeO u) then
        let out := processPage probeO qd maxResults rest
          { st1 with droppedDead := st1.droppedDead + 1 }
        ⟨out.st, pe ++ out.evs, out.left⟩
      else
        let st2 := { st1 with
          filtered := st1.filtered ++ [⟨r.name, u, r.snippet⟩] }
        if maxResults ≤ st2.filtered.length then
          ⟨st2, pe, rest⟩
        else
          let out := processPage probeO qd maxResults rest st2
          ⟨out.st, pe ++ out.evs, out.left⟩

/-! ## The fetch loop (lines 58–119) -/

/-- How one invocation ended: `raised` if the uncaught exception from
`requests.get` propagated out of `search`, `done` if the loop exited and
`filtered_results[:max_results]` was returned. Both carry the final state
and the full event trace. -/
inductive RunOut where
  | raised : SearchState → List Event → RunOut
  | done : SearchState → List Event → RunOut
deriving DecidableEq, Repr

/-- Final state of a run. -/
def RunOut.state : RunOut → SearchState
  | .raised st _ => st
  | .done st _ => st

/-- Event trace of a run. -/
def RunOut.events : RunOut → List Event
  | .raised _ evs => evs
  | .done _ evs => evs

/-- `max_attempts = 5` (line 56). -/
def maxAttempts : Nat := 5

/-- The `while len(filtered_results) < max_results and attempts < max_attempts`
loop. `fuel` is `max_attempts - attempts`, so the fuel-0 base case is exactly
the `attempts < max_attempts` test turning false. Each iteration issues one
fetch; `raiseExc` propagates (no enclosing `try`), `respNone` / `parseError` /
an empty page `break`, and a non-empty page is filtered by `processPage`
before `offset += page_size; attempts += 1`. -/
def searchLoop (fetchO : Nat → FetchOutcome) (probeO : String → ProbeOutcome)
    (qd : List String) (maxResults pageSize : Nat) :
    Nat → Nat → Nat → SearchState → List Event → RunOut
  | 0, _, _, st, evs => .done st evs
  | fuel + 1, offset, attempts, st, evs =>
    if st.filtered.length < maxResults then
      match fetchO attempts with
      | .raiseExc => .raised st (evs ++ [Event.fetch offset])
      | .respNone => .done st (evs ++ [Event.fetch offset])
      | .parseError => .done st (evs ++ [Event.fetch offset])
      | .page [] => .done st (evs ++ [Event.fetch offset])
      | .page (r :: rs) =>
        let out := processPage probeO qd maxResults (r :: rs) st
        searchLoop fetchO probeO qd maxResults pageSize fuel
          (offset + pageSize) (attempts + 1) out.st
          (evs ++ [Event.fetch offset] ++ out.evs)
    else .done st evs

/-- One full invocation of `BingSearch.search`: `page_size = max_results`
(line 55), `offset = 0`, `attempts = 0`, fresh state, empty trace. -/
def searchRun (fetchO : Nat → FetchOutcome) (probeO : String → ProbeOutcome)
    (qd : List String) (maxResults : Nat) : RunOut :=
  searchLoop fetchO probeO qd maxResults maxResults maxAttempts 0 0 initState []

/-- What crosses the `search` boundary: `filtered_results[:max_results]` on
normal exit, or the propagated exception (`Except.error ()`). `qd` is the
effective `self.query_domains`: `[]` means the Python value is falsy
(`None` or an empty list), so the allow-list stage is skipped. -/
def search (fetchO : Nat → FetchOutcome) (probeO : String → ProbeOutcome)
    (qd : List String) (maxResults : Nat) : Except Unit (List SearchResult) :=
  match searchRun fetchO probeO qd maxResults with
  | .raised _ _ => .error ()
  | .done st _ => .ok (st.filtered.take maxResults)

/-! ## Construction (`__init__` / `get_api_key`, lines 15–37) -/

/-- The message of the exception raised when `BING_API_KEY` is absent. -/
def apiKeyMissingMsg : String :=
  "Bing API key not found. Please set the BING_API_KEY environment variable."

/-- `get_api_key`: read `os.environ["BING_API_KEY"]` (modelled as an
`Option String`); absence raises. -/
def get_api_key (env : Option String) : Except String String :=
  match env with
  | some k => Except.ok k
  | none => Except.error apiKeyMissingMsg

/-- The constructed engine: `self.query`, `self.query_domains`,
`self.api_key`. -/
structure BingSearch where
  query : String
  query_domains : Option (List String)
  api_key : String
deriving DecidableEq, Repr

/-- `query_domains or None`: a falsy argument (here: `None` or `[]`)
is normalized to `None`. -/
def normDomains : Option (List String) → Option (List String)
  | some [] => none
  | some (d :: ds) => some (d :: ds)
  | none => none

/-- `BingSearch.__init__`: stores the query and normalized domains, then
calls `get_api_key`, whose exception propagates (so no object is
constructed, and no network call has been made — `__init__` performs none). -/
def construct (env : Option String) (query : String)
    (query_domains : Option (List String)) : Except String BingSearch :=
  match get_api_key env with
  | Except.error e => Except.error e
  | Except.ok k => Except.ok ⟨query, normDomains query_domains, k⟩

/-- The per-state acceptance invariant: accepted URLs are pairwise distinct,
recorded in `seen`, allow-list conformant, and (when scheme-qualified)
probe-passing. -/
def GoodState (pO : String → ProbeOutcome) (qd : List String)
    (st : SearchState) : Prop :=
  (st.filtered.map SearchResult.href).Nodup ∧
  (∀ x ∈ st.filtered, x.href ∈ st.seen) ∧
  (∀ x ∈ st.filtered, qd = [] ∨ allowedByDomains qd x.href = true) ∧
  (∀ x ∈ st.filtered, strStartsWith x.href "http" = true →
    probeFails (pO x.href) = false)


/-! ## Concrete scenarios used as witnesses and counterexamples -/

/-- First page: two live unique results; later pages empty. -/
def pageTwo : List RawResult :=
  [⟨"https://a.example/1", "t1", "s1"⟩, ⟨"https://a.example/2", "t2", "s2"⟩]

/-- Backend returning `pageTwo` on attempt 0 and empty pages afterwards. -/
def fetchTwo : Nat → FetchOutcome := fun k =>
  if k = 0 then FetchOutcome.page pageTwo else FetchOutcome.page []

/-- Every probe answers 200. -/
def probeLive : String → ProbeOutcome := fun _ => ProbeOutcome.status 200

/-- Every probe answers 404 (dead link). -/
def probeDead : String → ProbeOutcome := fun _ => ProbeOutcome.status 404

/-- Every page request raises (network error). -/
def fetchRaise : Nat → FetchOutcome := fun _ => FetchOutcome.raiseExc

/-- Every page is empty. -/
def fetchEmpty : Nat → FetchOutcome := fun _ => FetchOutcome.page []

/-- First page holds one candidate whose URL has no network scheme. -/
def fetchSchemeless : Nat → FetchOutcome := fun k =>
  if k = 0 then FetchOutcome.page [⟨"www.example.com/a", "T", "S"⟩]
  else FetchOutcome.page []

/-- First page holds one youtube candidate (blocked source). -/
def fetchYt : Nat → FetchOutcome := fun k =>
  if k = 0 then FetchOutcome.page [⟨"https://youtube.com/watch?v=1", "T", "S"⟩]
  else FetchOutcome.page []

/-- The same URL appears on pages 1 and 2; later pages empty. -/
def fetchFlaky : Nat → FetchOutcome := fun k =>
  if k ≤ 1 then FetchOutcome.page [⟨"https://flaky.example/x", "t", "s"⟩]
  else FetchOutcome.page []

/-- Intermediate state holding one accepted result, for the early-termination
witness. -/
def stOneFull : SearchState :=
  ⟨[⟨"t1", "https://a.example/1", "s1"⟩], ["https://a.example/1"], 0, 0⟩

/-! # Lemmas -/

/-! ### Branch equations for `processPage` -/

theorem processPage_nil (pO : String → ProbeOutcome) (qd : List String)
    (mr : Nat) (st : SearchState) :
    processPage pO qd mr [] st = ⟨st, [], []⟩ := by
  simp [processPage]

theorem processPage_yt (pO : String → ProbeOutcome) (qd : List String)
    (mr : Nat) (r : RawResult) (rest : List RawResult) (st : SearchState)
    (h1 : strContains r.url "youtube.com" = true) :
    processPage pO qd mr (r :: rest) st = processPage pO qd mr rest st := by
  simp [processPage, h1]

theorem processPage_domainDrop (pO : String → ProbeOutcome) (qd : List String)
    (mr : Nat) (r : RawResult) (rest : List RawResult) (st : SearchState)
    (h1 : strContains r.url "youtube.com" = false)
    (h2 : (!qd.isEmpty && !allowedByDomains qd r.url) = true) :
    processPage pO qd mr (r :: rest) st =
      processPage pO qd mr rest { st with droppedDomain := st.droppedDomain + 1 } := by
  simp [processPage, h1, h2]

theorem processPage_dup (pO : String → ProbeOutcome) (qd : List String)
    (mr : Nat) (r : RawResult) (rest : List RawResult) (st : SearchState)
    (h1 : strContains r.url "youtube.com" = false)
    (h2 : (!qd.isEmpty && !allowedByDomains qd r.url) = false)
    (h3 : st.seen.contains r.url = true) :
    processPage pO qd mr (r :: rest) st = processPage pO qd mr rest st := by
  have h3' : r.url ∈ st.seen := by simpa using h3
  simp [processPage, h1, h2, h3']

theorem processPage_dead (pO : String → ProbeOutcome) (qd : List String)
    (mr : Nat) (r : RawResult) (rest : List RawResult) (st : SearchState)
    (h1 : strContains r.url "youtube.com" = false)
    (h2 : (!qd.isEmpty && !allowedByDomains qd r.url) = false)
    (h3 : st.seen.contains r.url = false)
    (h4 : (strStartsWith r.url "http" && probeFails (pO r.url)) = true) :
    processPage pO qd mr (r :: rest) st =
      ⟨(processPage pO qd mr rest
          { st with seen := r.url :: st.seen, droppedDead := st.droppedDead + 1 }).st,
       Event.probe r.url ::
        (processPage pO qd mr rest
          { st with seen := r.url :: st.seen, droppedDead := st.droppedDead + 1 }).evs,
       (processPage pO qd mr rest
          { st with seen := r.url :: st.seen, droppedDead := st.droppedDead + 1 }).left⟩ := by
  have h3' : r.url ∉ st.seen := by simpa using h3
  have hh : strStartsWith r.url "http" = true := (Bool.and_eq_true _ _).mp h4 |>.1
  have hp : probeFails (pO r.url) = true := (Bool.and_eq_true _ _).mp h4 |>.2
  simp [processPage, h1, h2, h3', hh, hp]

theorem processPage_acceptStop (pO : String → ProbeOutcome) (qd : List String)
    (mr : Nat) (r : RawResult) (rest : List RawResult) (st : SearchState)
    (h1 : strContains r.url "youtube.com" = false)
    (h2 : (!qd.isEmpty && !allowedByDomains qd r.url) = false)
    (h3 : st.seen.contains r.url = false)
    (h4 : (strStartsWith r.url "http" && probeFails (pO r.url)) = false)
    (h5 : mr ≤ st.filtered.length + 1) :
    processPage pO qd mr (r :: rest) st =
      ⟨{ st with filtered := st.filtered ++ [⟨r.name, r.url, r.snippet⟩],
                 seen := r.url :: st.seen },
       if strStartsWith r.url "http" then [Event.probe r.url] else [],
       rest⟩ := by
  have h3' : r.url ∉ st.seen := by simpa using h3
  simp [processPage, h1, h2, h3', h4, h5]

theorem processPage_acceptGo (pO : String → ProbeOutcome) (qd : List String)
    (mr : Nat) (r : RawResult) (rest : List RawResult) (st : SearchState)
    (h1 : strContains r.url "youtube.com" = false)
    (h2 : (!qd.isEmpty && !allowedByDomains qd r.url) = false)
    (h3 : st.seen.contains r.url = false)
    (h4 : (strStartsWith r.url "http" && probeFails (pO r.url)) = false)
    (h5 : st.filtered.length + 1 < mr) :
    processPage pO qd mr (r :: rest) st =
      ⟨(processPage pO qd mr rest
          { st with filtered := st.filtered ++ [⟨r.name, r.url, r.snippet⟩],
                    seen := r.url :: st.seen }).st,
       (if strStartsWith r.url "http" then [Event.probe r.url] else []) ++
        (processPage pO qd mr rest
          { st with filtered := st.filtered ++ [⟨r.name, r.url, r.snippet⟩],
                    seen := r.url :: st.seen }).evs,
       (processPage pO qd mr rest
          { st with filtered := st.filtered ++ [⟨r.name, r.url, r.snippet⟩],
                    seen := r.url :: st.seen }).left⟩ := by
  have h3' : r.url ∉ st.seen := by simpa using h3
  simp [processPage, h1, h2, h3', h4, Nat.not_le.mpr h5]

theorem processPage_seen_mono (pO : String → ProbeOutcome) (qd : List String)
    (mr : Nat) (rs : List RawResult) :
    ∀ (st : SearchState) (u : String),
      u ∈ st.seen → u ∈ (processPage pO qd mr rs st).st.seen := by
  induction rs with
  | nil => intro st u h; simpa [processPage] using h
  | cons r rest ih =>
    intro st u h
    simp only [processPage]
    split
    · exact ih st u h
    · split
      · exact ih _ u h
      · split
        · exact ih st u h
        · split
          · exact ih _ u (List.mem_cons_of_mem _ h)
          · split
            · exact List.mem_cons_of_mem _ h
            · exact ih _ u (List.mem_cons_of_mem _ h)

/-! ### Trace helpers -/

theorem fetchCount_append (a b : List Event) :
    fetchCount (a ++ b) = fetchCount a + fetchCount b := by
  induction a with
  | nil => simp [fetchCount]
  | cons e t ih =>
    cases e with
    | fetch n => simp [fetchCount, ih]; omega
    | probe u => simp [fetchCount, ih]

theorem probeUrls_append (a b : List Event) :
    probeUrls (a ++ b) = probeUrls a ++ probeUrls b := by
  induction a with
  | nil => simp [probeUrls]
  | cons e t ih => cases e <;> simp [probeUrls, ih]

/-! ### Per-page lemmas -/

theorem processPage_counters_mono (pO : String → ProbeOutcome) (qd : List String)
    (mr : Nat) : ∀ (rs : List RawResult) (st : SearchState),
    st.droppedDead ≤ (processPage pO qd mr rs st).st.droppedDead ∧
    st.droppedDomain ≤ (processPage pO qd mr rs st).st.droppedDomain := by
  intro rs
  induction rs with
  | nil => intro st; simp [processPage]
  | cons r rest ih =>
    intro st
    cases h1 : strContains r.url "youtube.com" with
    | true => rw [processPage_yt pO qd mr r rest st h1]; exact ih st
    | false =>
      cases h2 : (!qd.isEmpty && !allowedByDomains qd r.url) with
      | true =>
        rw [processPage_domainDrop pO qd mr r rest st h1 h2]
        exact ⟨(ih { st with droppedDomain := st.droppedDomain + 1 }).1,
               le_trans (Nat.le_succ _)
                 (ih { st with droppedDomain := st.droppedDomain + 1 }).2⟩
      | false =>
        cases h3 : st.seen.contains r.url with
        | true => rw [processPage_dup pO qd mr r rest st h1 h2 h3]; exact ih st
        | false =>
          cases h4 : (strStartsWith r.url "http" && probeFails (pO r.url)) with
          | true =>
            rw [processPage_dead pO qd mr r rest st h1 h2 h3 h4]
            exact ⟨le_trans (Nat.le_succ _)
                     (ih { st with seen := r.url :: st.seen,
                                   droppedDead := st.droppedDead + 1 }).1,
                   (ih { st with seen := r.url :: st.seen,
                                 droppedDead := st.droppedDead + 1 }).2⟩
          | false =>
            by_cases h5 : mr ≤ st.filtered.length + 1
            · rw [processPage_acceptStop pO qd mr r rest st h1 h2 h3 h4 h5]
              exact ⟨le_refl _, le_refl _⟩
            · rw [processPage_acceptGo pO qd mr r rest st h1 h2 h3 h4 (Nat.not_le.mp h5)]
              exact ih { st with
                filtered := st.filtered ++ [⟨r.name, r.url, r.snippet⟩],
                seen := r.url :: st.seen }

theorem processPage_no_fetch (pO : String → ProbeOutcome) (qd : List String)
    (mr : Nat) : ∀ (rs : List RawResult) (st : SearchState),
    fetchCount (processPage pO qd mr rs st).evs = 0 := by
  intro rs
  induction rs with
  | nil => intro st; simp [processPage, fetchCount]
  | cons r rest ih =>
    intro st
    cases h1 : strContains r.url "youtube.com" with
    | true => rw [processPage_yt pO qd mr r rest st h1]; exact ih st
    | false =>
      cases h2 : (!qd.isEmpty && !allowedByDomains qd r.url) with
      | true =>
        rw [processPage_domainDrop pO qd mr r rest st h1 h2]
        exact ih { st with droppedDomain := st.droppedDomain + 1 }
      | false =>
        cases h3 : st.seen.contains r.url with
        | true => rw [processPage_dup pO qd mr r rest st h1 h2 h3]; exact ih st
        | false =>
          cases h4 : (strStartsWith r.url "http" && probeFails (pO r.url)) with
          | true =>
            rw [processPage_dead pO qd mr r rest st h1 h2 h3 h4]
            simpa [fetchCount] using
              ih { st with seen := r.url :: st.seen,
                           droppedDead := st.droppedDead + 1 }
          | false =>
            by_cases h5 : mr ≤ st.filtered.length + 1
            · rw [processPage_acceptStop pO qd mr r rest st h1 h2 h3 h4 h5]
              cases hh : strStartsWith r.url "http" <;> simp [hh, fetchCount]
            · rw [processPage_acceptGo pO qd mr r rest st h1 h2 h3 h4 (Nat.not_le.mp h5)]
              cases hh : strStartsWith r.url "http" <;>
                simp [hh, fetchCount, fetchCount_append,
                  ih { st with
                    filtered := st.filtered ++ [⟨r.name, r.url, r.snippet⟩],
                    seen := r.url :: st.seen }]

theorem processPage_filtered_extend (pO : String → ProbeOutcome) (qd : List String)
    (mr : Nat) : ∀ (rs : List RawResult) (st : SearchState),
    ∃ new, (processPage pO qd mr rs st).st.filtered = st.filtered ++ new := by
  intro rs
  induction rs with
  | nil => intro st; exact ⟨[], by simp [processPage]⟩
  | cons r rest ih =>
    intro st
    cases h1 : strContains r.url "youtube.com" with
    | true => rw [processPage_yt pO qd mr r rest st h1]; exact ih st
    | false =>
      cases h2 : (!qd.isEmpty && !allowedByDomains qd r.url) with
      | true =>
        rw [processPage_domainDrop pO qd mr r rest st h1 h2]
        exact ih { st with droppedDomain := st.droppedDomain + 1 }
      | false =>
        cases h3 : st.seen.contains r.url with
        | true => rw [processPage_dup pO qd mr r rest st h1 h2 h3]; exact ih st
        | false =>
          cases h4 : (strStartsWith r.url "http" && probeFails (pO r.url)) with
          | true =>
            rw [processPage_dead pO qd mr r rest st h1 h2 h3 h4]
            exact ih { st with seen := r.url :: st.seen,
                               droppedDead := st.droppedDead + 1 }
          | false =>
            by_cases h5 : mr ≤ st.filtered.length + 1
            · rw [processPage_acceptStop pO qd mr r rest st h1 h2 h3 h4 h5]
              exact ⟨[⟨r.name, r.url, r.snippet⟩], rfl⟩
            · rw [processPage_acceptGo pO qd mr r rest st h1 h2 h3 h4 (Nat.not_le.mp h5)]
              obtain ⟨new, hnew⟩ := ih { st with
                filtered := st.filtered ++ [⟨r.name, r.url, r.snippet⟩],
                seen := r.url :: st.seen }
              exact ⟨⟨r.name, r.url, r.snippet⟩ :: new, by simp [hnew]⟩

theorem processPage_length_le (pO : String → ProbeOutcome) (qd : List String)
    (mr : Nat) : ∀ (rs : List RawResult) (st : SearchState),
    st.filtered.length < mr →
    (processPage pO qd mr rs st).st.filtered.length ≤ mr := by
  intro rs
  induction rs with
  | nil => intro st h; simpa [processPage] using le_of_lt h
  | cons r rest ih =>
    intro st h
    cases h1 : strContains r.url "youtube.com" with
    | true => rw [processPage_yt pO qd mr r rest st h1]; exact ih st h
    | false =>
      cases h2 : (!qd.isEmpty && !allowedByDomains qd r.url) with
      | true =>
        rw [processPage_domainDrop pO qd mr r rest st h1 h2]
        exact ih { st with droppedDomain := st.droppedDomain + 1 } h
      | false =>
        cases h3 : st.seen.contains r.url with
        | true => rw [processPage_dup pO qd mr r rest st h1 h2 h3]; exact ih st h
        | false =>
          cases h4 : (strStartsWith r.url "http" && probeFails (pO r.url)) with
          | true =>
            rw [processPage_dead pO qd mr r rest st h1 h2 h3 h4]
            exact ih { st with seen := r.url :: st.seen,
                               droppedDead := st.droppedDead + 1 } h
          | false =>
            by_cases h5 : mr ≤ st.filtered.length + 1
            · rw [processPage_acceptStop pO qd mr r rest st h1 h2 h3 h4 h5]
              simpa using Nat.succ_le_of_lt h
            · rw [processPage_acceptGo pO qd mr r rest st h1 h2 h3 h4 (Nat.not_le.mp h5)]
              exact ih { st with
                filtered := st.filtered ++ [⟨r.name, r.url, r.snippet⟩],
                seen := r.url :: st.seen } (by simpa using Nat.not_le.mp h5)

theorem processPage_left_max (pO : String → ProbeOutcome) (qd : List String)
    (mr : Nat) : ∀ (rs : List RawResult) (st : SearchState),
    (processPage pO qd mr rs st).left ≠ [] →
    mr ≤ (processPage pO qd mr rs st).st.filtered.length := by
  intro rs
  induction rs with
  | nil => intro st h; exact absurd (by simp [processPage]) h
  | cons r rest ih =>
    intro st
    cases h1 : strContains r.url "youtube.com" with
    | true => rw [processPage_yt pO qd mr r rest st h1]; exact ih st
    | false =>
      cases h2 : (!qd.isEmpty && !allowedByDomains qd r.url) with
      | true =>
        rw [processPage_domainDrop pO qd mr r rest st h1 h2]
        exact ih { st with droppedDomain := st.droppedDomain + 1 }
      | false =>
        cases h3 : st.seen.contains r.url with
        | true => rw [processPage_dup pO qd mr r rest st h1 h2 h3]; exact ih st
        | false =>
          cases h4 : (strStartsWith r.url "http" && probeFails (pO r.url)) with
          | true =>
            rw [processPage_dead pO qd mr r rest st h1 h2 h3 h4]
            exact ih { st with seen := r.url :: st.seen,
                               droppedDead := st.droppedDead + 1 }
          | false =>
            by_cases h5 : mr ≤ st.filtered.length + 1
            · rw [processPage_acceptStop pO qd mr r rest st h1 h2 h3 h4 h5]
              intro _
              simpa using h5
            · rw [processPage_acceptGo pO qd mr r rest st h1 h2 h3 h4 (Nat.not_le.mp h5)]
              exact ih { st with
                filtered := st.filtered ++ [⟨r.name, r.url, r.snippet⟩],
                seen := r.url :: st.seen }

theorem processPage_examined (pO : String → ProbeOutcome) (qd : List String)
    (mr : Nat) : ∀ (rs : List RawResult) (st : SearchState),
    ∃ pre, rs = pre ++ (processPage pO qd mr rs st).left ∧
      processPage pO qd mr pre st =
        ⟨(processPage pO qd mr rs st).st, (processPage pO qd mr rs st).evs, []⟩ := by
  intro rs
  induction rs with
  | nil => intro st; exact ⟨[], by simp [processPage]⟩
  | cons r rest ih =>
    intro st
    cases h1 : strContains r.url "youtube.com" with
    | true =>
      rw [processPage_yt pO qd mr r rest st h1]
      obtain ⟨pre, hp, he⟩ := ih st
      exact ⟨r :: pre, by rw [List.cons_append, ← hp],
        by rw [processPage_yt pO qd mr r pre st h1]; exact he⟩
    | false =>
      cases h2 : (!qd.isEmpty && !allowedByDomains qd r.url) with
      | true =>
        rw [processPage_domainDrop pO qd mr r rest st h1 h2]
        obtain ⟨pre, hp, he⟩ := ih { st with droppedDomain := st.droppedDomain + 1 }
        exact ⟨r :: pre, by rw [List.cons_append, ← hp],
          by rw [processPage_domainDrop pO qd mr r pre st h1 h2]; exact he⟩
      | false =>
        cases h3 : st.seen.contains r.url with
        | true =>
          rw [processPage_dup pO qd mr r rest st h1 h2 h3]
          obtain ⟨pre, hp, he⟩ := ih st
          exact ⟨r :: pre, by rw [List.cons_append, ← hp],
            by rw [processPage_dup pO qd mr r pre st h1 h2 h3]; exact he⟩
        | false =>
          cases h4 : (strStartsWith r.url "http" && probeFails (pO r.url)) with
          | true =>
            rw [processPage_dead pO qd mr r rest st h1 h2 h3 h4]
            obtain ⟨pre, hp, he⟩ := ih { st with seen := r.url :: st.seen,
                                                 droppedDead := st.droppedDead + 1 }
            refine ⟨r :: pre, by rw [List.cons_append, ← hp], ?_⟩
            rw [processPage_dead pO qd mr r pre st h1 h2 h3 h4, he]
          | false =>
            by_cases h5 : mr ≤ st.filtered.length + 1
            · rw [processPage_acceptStop pO qd mr r rest st h1 h2 h3 h4 h5]
              exact ⟨[r], rfl,
                by rw [processPage_acceptStop pO qd mr r [] st h1 h2 h3 h4 h5]⟩
            · rw [processPage_acceptGo pO qd mr r rest st h1 h2 h3 h4 (Nat.not_le.mp h5)]
              obtain ⟨pre, hp, he⟩ := ih { st with
                filtered := st.filtered ++ [⟨r.name, r.url, r.snippet⟩],
                seen := r.url :: st.seen }
              refine ⟨r :: pre, by rw [List.cons_append, ← hp], ?_⟩
              rw [processPage_acceptGo pO qd mr r pre st h1 h2 h3 h4 (Nat.not_le.mp h5), he]

theorem processPage_new_elem (pO : String → ProbeOutcome) (qd : List String)
    (mr : Nat) : ∀ (rs : List RawResult) (st : SearchState) (x : SearchResult),
    x ∈ (processPage pO qd mr rs st).st.filtered →
    x ∈ st.filtered ∨
      ((qd = [] ∨ allowedByDomains qd x.href = true) ∧
       (strStartsWith x.href "http" = true → probeFails (pO x.href) = false) ∧
       x.href ∉ st.seen ∧ x.href ∈ (processPage pO qd mr rs st).st.seen) := by
  intro rs
  induction rs with
  | nil => intro st x hx; left; simpa [processPage] using hx
  | cons r rest ih =>
    intro st x hx
    cases h1 : strContains r.url "youtube.com" with
    | true =>
      rw [processPage_yt pO qd mr r rest st h1] at hx ⊢
      exact ih st x hx
    | false =>
      cases h2 : (!qd.isEmpty && !allowedByDomains qd r.url) with
      | true =>
        rw [processPage_domainDrop pO qd mr r rest st h1 h2] at hx ⊢
        exact ih { st with droppedDomain := st.droppedDomain + 1 } x hx
      | false =>
        have hd : qd = [] ∨ allowedByDomains qd r.url = true := by
          rcases Bool.and_eq_false_iff.mp h2 with h | h
          · left; simpa [List.isEmpty_iff] using h
          · right; simpa using h
        cases h3 : st.seen.contains r.url with
        | true =>
          rw [processPage_dup pO qd mr r rest st h1 h2 h3] at hx ⊢
          exact ih st x hx
        | false =>
          have h3' : r.url ∉ st.seen := by simpa using h3
          cases h4 : (strStartsWith r.url "http" && probeFails (pO r.url)) with
          | true =>
            rw [processPage_dead pO qd mr r rest st h1 h2 h3 h4] at hx ⊢
            rcases ih { st with seen := r.url :: st.seen,
                                droppedDead := st.droppedDead + 1 } x hx with h | ⟨ha, hb, hc, hdn⟩
            · exact Or.inl h
            · exact Or.inr ⟨ha, hb, fun hm => hc (List.mem_cons_of_mem _ hm), hdn⟩
          | false =>
            have hpok : strStartsWith r.url "http" = true →
                probeFails (pO r.url) = false := by
              intro hh
              rcases Bool.and_eq_false_iff.mp h4 with h | h
              · exact absurd hh (by simp [h])
              · exact h
            by_cases h5 : mr ≤ st.filtered.length + 1
            · rw [processPage_acceptStop pO qd mr r rest st h1 h2 h3 h4 h5] at hx ⊢
              rcases List.mem_append.mp hx with h | h
              · exact Or.inl h
              · have hx2 : x = ⟨r.name, r.url, r.snippet⟩ := by simpa using h
                subst hx2
                exact Or.inr ⟨hd, hpok, h3', List.mem_cons_self _ _⟩
            · rw [processPage_acceptGo pO qd mr r rest st h1 h2 h3 h4
                (Nat.not_le.mp h5)] at hx ⊢
              rcases ih { st with
                  filtered := st.filtered ++ [⟨r.name, r.url, r.snippet⟩],
                  seen := r.url :: st.seen } x hx with h | ⟨ha, hb, hc, hdn⟩
              · rcases List.mem_append.mp h with h | h
                · exact Or.inl h
                · have hx2 : x = ⟨r.name, r.url, r.snippet⟩ := by simpa using h
                  subst hx2
                  refine Or.inr ⟨hd, hpok, h3', ?_⟩
                  exact processPage_seen_mono pO qd mr rest _ _
                    (List.mem_cons_self _ _)
              · exact Or.inr ⟨ha, hb, fun hm => hc (List.mem_cons_of_mem _ hm), hdn⟩

theorem processPage_events (pO : String → ProbeOutcome) (qd : List String)
    (mr : Nat) : ∀ (rs : List RawResult) (st : SearchState),
    (probeUrls (processPage pO qd mr rs st).evs).Nodup ∧
    ∀ u ∈ probeUrls (processPage pO qd mr rs st).evs,
      u ∉ st.seen ∧ u ∈ (processPage pO qd mr rs st).st.seen ∧
      strStartsWith u "http" = true := by
  intro rs
  induction rs with
  | nil => intro st; simp [processPage, probeUrls]
  | cons r rest ih =>
    intro st
    cases h1 : strContains r.url "youtube.com" with
    | true => rw [processPage_yt pO qd mr r rest st h1]; exact ih st
    | false =>
      cases h2 : (!qd.isEmpty && !allowedByDomains qd r.url) with
      | true =>
        rw [processPage_domainDrop pO qd mr r rest st h1 h2]
        exact ih { st with droppedDomain := st.droppedDomain + 1 }
      | false =>
        cases h3 : st.seen.contains r.url with
        | true => rw [processPage_dup pO qd mr r rest st h1 h2 h3]; exact ih st
        | false =>
          have h3' : r.url ∉ st.seen := by simpa using h3
          cases h4 : (strStartsWith r.url "http" && probeFails (pO r.url)) with
          | true =>
            rw [processPage_dead pO qd mr r rest st h1 h2 h3 h4]
            have hh : strStartsWith r.url "http" = true :=
              ((Bool.and_eq_true _ _).mp h4).1
            obtain ⟨nd, hmem⟩ := ih { st with seen := r.url :: st.seen,
                                              droppedDead := st.droppedDead + 1 }
            simp only [probeUrls]
            constructor
            · exact List.nodup_cons.mpr
                ⟨fun hm => (hmem _ hm).1 (List.mem_cons_self _ _), nd⟩
            · intro u hu
              rcases List.mem_cons.mp hu with rfl | hu'
              · exact ⟨h3',
                  processPage_seen_mono pO qd mr rest _ _ (List.mem_cons_self _ _), hh⟩
              · obtain ⟨ha, hb, hc⟩ := hmem u hu'
                exact ⟨fun hm => ha (List.mem_cons_of_mem _ hm), hb, hc⟩
          | false =>
            by_cases h5 : mr ≤ st.filtered.length + 1
            · rw [processPage_acceptStop pO qd mr r rest st h1 h2 h3 h4 h5]
              cases hh : strStartsWith r.url "http" with
              | true =>
                simp only [hh, if_true, probeUrls]
                refine ⟨List.nodup_singleton _, ?_⟩
                intro u hu
                rcases List.mem_cons.mp hu with rfl | hu'
                · exact ⟨h3', List.mem_cons_self _ _, hh⟩
                · exact absurd hu' (List.not_mem_nil u)
              | false => simp [hh, probeUrls]
            · rw [processPage_acceptGo pO qd mr r rest st h1 h2 h3 h4 (Nat.not_le.mp h5)]
              obtain ⟨nd, hmem⟩ := ih { st with
                filtered := st.filtered ++ [⟨r.name, r.url, r.snippet⟩],
                seen := r.url :: st.seen }
              cases hh : strStartsWith r.url "http" with
              | true =>
                simp only [hh, if_true, probeUrls, List.cons_append, List.nil_append]
                constructor
                · exact List.nodup_cons.mpr
                    ⟨fun hm => (hmem _ hm).1 (List.mem_cons_self _ _), nd⟩
                · intro u hu
                  rcases List.mem_cons.mp hu with rfl | hu'
                  · exact ⟨h3',
                      processPage_seen_mono pO qd mr rest _ _ (List.mem_cons_self _ _), hh⟩
                  · obtain ⟨ha, hb, hc⟩ := hmem u hu'
                    exact ⟨fun hm => ha (List.mem_cons_of_mem _ hm), hb, hc⟩
              | false =>
                simp only [hh, if_false, List.nil_append]
                refine ⟨nd, ?_⟩
                intro u hu
                obtain ⟨ha, hb, hc⟩ := hmem u hu
                exact ⟨fun hm => ha (List.mem_cons_of_mem _ hm), hb, hc⟩

theorem processPage_inv (pO : String → ProbeOutcome) (qd : List String)
    (mr : Nat) : ∀ (rs : List RawResult) (st : SearchState),
    (st.filtered.map SearchResult.href).Nodup →
    (∀ x ∈ st.filtered, x.href ∈ st.seen) →
    ((processPage pO qd mr rs st).st.filtered.map SearchResult.href).Nodup ∧
      ∀ x ∈ (processPage pO qd mr rs st).st.filtered,
        x.href ∈ (processPage pO qd mr rs st).st.seen := by
  intro rs
  induction rs with
  | nil => intro st hn hs; exact ⟨by simpa [processPage] using hn, by
      simpa [processPage] using hs⟩
  | cons r rest ih =>
    intro st hn hs
    cases h1 : strContains r.url "youtube.com" with
    | true => rw [processPage_yt pO qd mr r rest st h1]; exact ih st hn hs
    | false =>
      cases h2 : (!qd.isEmpty && !allowedByDomains qd r.url) with
      | true =>
        rw [processPage_domainDrop pO qd mr r rest st h1 h2]
        exact ih { st with droppedDomain := st.droppedDomain + 1 } hn hs
      | false =>
        cases h3 : st.seen.contains r.url with
        | true => rw [processPage_dup pO qd mr r rest st h1 h2 h3]; exact ih st hn hs
        | false =>
          have h3' : r.url ∉ st.seen := by simpa using h3
          cases h4 : (strStartsWith r.url "http" && probeFails (pO r.url)) with
          | true =>
            rw [processPage_dead pO qd mr r rest st h1 h2 h3 h4]
            exact ih { st with seen := r.url :: st.seen,
                               droppedDead := st.droppedDead + 1 } hn
              (fun x hx => List.mem_cons_of_mem _ (hs x hx))
          | false =>
            have hn2 : ((st.filtered ++
                [(⟨r.name, r.url, r.snippet⟩ : SearchResult)]).map
                  SearchResult.href).Nodup := by
              rw [List.map_append]
              refine List.Nodup.append hn (List.nodup_singleton _) ?_
              intro a ha hb
              have : a = r.url := by simpa using hb
              subst this
              obtain ⟨x, hx, hxh⟩ := List.mem_map.mp ha
              exact h3' (hxh ▸ hs x hx)
            have hs2 : ∀ x ∈ st.filtered ++
                [(⟨r.name, r.url, r.snippet⟩ : SearchResult)],
                x.href ∈ r.url :: st.seen := by
              intro x hx
              rcases List.mem_append.mp hx with h | h
              · exact List.mem_cons_of_mem _ (hs x h)
              · have : x = ⟨r.name, r.url, r.snippet⟩ := by simpa using h
                subst this
                exact List.mem_cons_self _ _
            by_cases h5 : mr ≤ st.filtered.length + 1
            · rw [processPage_acceptStop pO qd mr r rest st h1 h2 h3 h4 h5]
              exact ⟨hn2, hs2⟩
            · rw [processPage_acceptGo pO qd mr r rest st h1 h2 h3 h4 (Nat.not_le.mp h5)]
              exact ih { st with
                filtered := st.filtered ++ [⟨r.name, r.url, r.snippet⟩],
                seen := r.url :: st.seen } hn2 hs2

/-! ### Loop-level lemmas -/

theorem searchLoop_stop (fO : Nat → FetchOutcome) (pO : String → ProbeOutcome)
    (qd : List String) (mr ps : Nat) (fuel off att : Nat) (st : SearchState)
    (evs : List Event) (h : mr ≤ st.filtered.length) :
    searchLoop fO pO qd mr ps fuel off att st evs = RunOut.done st evs := by
  cases fuel with
  | zero => simp [searchLoop]
  | succ n => simp [searchLoop, Nat.not_lt.mpr h]

theorem searchLoop_break (fO : Nat → FetchOutcome) (pO : String → ProbeOutcome)
    (qd : List String) (mr ps : Nat) (fuel off att : Nat) (st : SearchState)
    (evs : List Event) (hlt : st.filtered.length < mr)
    (hf : fO att = FetchOutcome.respNone ∨ fO att = FetchOutcome.parseError ∨
      fO att = FetchOutcome.page []) :
    searchLoop fO pO qd mr ps (fuel + 1) off att st evs =
      RunOut.done st (evs ++ [Event.fetch off]) := by
  rcases hf with h | h | h <;> simp [searchLoop, hlt, h]

theorem searchLoop_length_le (fO : Nat → FetchOutcome) (pO : String → ProbeOutcome)
    (qd : List String) (mr ps : Nat) : ∀ (fuel off att : Nat) (st : SearchState)
    (evs : List Event), st.filtered.length ≤ mr →
    (searchLoop fO pO qd mr ps fuel off att st evs).state.filtered.length ≤ mr := by
  intro fuel
  induction fuel with
  | zero => intro off att st evs h; simpa [searchLoop, RunOut.state] using h
  | succ n ih =>
    intro off att st evs h
    by_cases hlt : st.filtered.length < mr
    · cases hf : fO att with
      | raiseExc => simpa [searchLoop, hlt, hf, RunOut.state] using h
      | respNone => simpa [searchLoop, hlt, hf, RunOut.state] using h
      | parseError => simpa [searchLoop, hlt, hf, RunOut.state] using h
      | page rs =>
        cases rs with
        | nil => simpa [searchLoop, hlt, hf, RunOut.state] using h
        | cons r rs2 =>
          simp only [searchLoop, hlt, if_true, hf]
          exact ih _ _ _ _ (processPage_length_le pO qd mr (r :: rs2) st hlt)
    · simpa [searchLoop, hlt, RunOut.state] using h

theorem searchLoop_fetchBound (fO : Nat → FetchOutcome) (pO : String → ProbeOutcome)
    (qd : List String) (mr ps : Nat) : ∀ (fuel off att : Nat) (st : SearchState)
    (evs : List Event),
    fetchCount (searchLoop fO pO qd mr ps fuel off att st evs).events ≤
      fetchCount evs + fuel := by
  intro fuel
  induction fuel with
  | zero => intro off att st evs; simp [searchLoop, RunOut.events]
  | succ n ih =>
    intro off att st evs
    by_cases hlt : st.filtered.length < mr
    · cases hf : fO att with
      | raiseExc =>
        simp [searchLoop, hlt, hf, RunOut.events, fetchCount_append, fetchCount]
      | respNone =>
        simp [searchLoop, hlt, hf, RunOut.events, fetchCount_append, fetchCount]
      | parseError =>
        simp [searchLoop, hlt, hf, RunOut.events, fetchCount_append, fetchCount]
      | page rs =>
        cases rs with
        | nil =>
          simp [searchLoop, hlt, hf, RunOut.events, fetchCount_append, fetchCount]
        | cons r rs2 =>
          simp only [searchLoop, hlt, if_true, hf]
          have hb := ih (off + ps) (att + 1)
            (processPage pO qd mr (r :: rs2) st).st
            (evs ++ [Event.fetch off] ++ (processPage pO qd mr (r :: rs2) st).evs)
          have hpp := processPage_no_fetch pO qd mr (r :: rs2) st
          simp only [fetchCount_append, fetchCount, hpp] at hb
          calc fetchCount (searchLoop fO pO qd mr ps n (off + ps) (att + 1)
                (processPage pO qd mr (r :: rs2) st).st
                (evs ++ [Event.fetch off] ++
                  (processPage pO qd mr (r :: rs2) st).evs)).events
              ≤ fetchCount evs + 0 + 1 + 0 + n := hb
            _ = fetchCount evs + (n + 1) := by omega
    · simp [searchLoop, hlt, RunOut.events]

theorem processPage_good (pO : String → ProbeOutcome) (qd : List String)
    (mr : Nat) (rs : List RawResult) (st : SearchState)
    (h : GoodState pO qd st) :
    GoodState pO qd (processPage pO qd mr rs st).st := by
  obtain ⟨h1, h2, h3, h4⟩ := h
  obtain ⟨g1, g2⟩ := processPage_inv pO qd mr rs st h1 h2
  refine ⟨g1, g2, ?_, ?_⟩
  · intro x hx
    rcases processPage_new_elem pO qd mr rs st x hx with hold | ⟨ha, _, _, _⟩
    · exact h3 x hold
    · exact ha
  · intro x hx hh
    rcases processPage_new_elem pO qd mr rs st x hx with hold | ⟨_, hb, _, _⟩
    · exact h4 x hold hh
    · exact hb hh

theorem searchLoop_good (fO : Nat → FetchOutcome) (pO : String → ProbeOutcome)
    (qd : List String) (mr ps : Nat) : ∀ (fuel off att : Nat) (st : SearchState)
    (evs : List Event), GoodState pO qd st →
    GoodState pO qd (searchLoop fO pO qd mr ps fuel off att st evs).state := by
  intro fuel
  induction fuel with
  | zero => intro off att st evs h; simpa [searchLoop, RunOut.state] using h
  | succ n ih =>
    intro off att st evs h
    by_cases hlt : st.filtered.length < mr
    · cases hf : fO att with
      | raiseExc => simpa [searchLoop, hlt, hf, RunOut.state] using h
      | respNone => simpa [searchLoop, hlt, hf, RunOut.state] using h
      | parseError => simpa [searchLoop, hlt, hf, RunOut.state] using h
      | page rs =>
        cases rs with
        | nil => simpa [searchLoop, hlt, hf, RunOut.state] using h
        | cons r rs2 =>
          simp only [searchLoop, hlt, if_true, hf]
          exact ih _ _ _ _ (processPage_good pO qd mr (r :: rs2) st h)
    · simpa [searchLoop, hlt, RunOut.state] using h

theorem searchLoop_seen_mono (fO : Nat → FetchOutcome) (pO : String → ProbeOutcome)
    (qd : List String) (mr ps : Nat) : ∀ (fuel off att : Nat) (st : SearchState)
    (evs : List Event) (u : String), u ∈ st.seen →
    u ∈ (searchLoop fO pO qd mr ps fuel off att st evs).state.seen := by
  intro fuel
  induction fuel with
  | zero => intro off att st evs u h; simpa [searchLoop, RunOut.state] using h
  | succ n ih =>
    intro off att st evs u h
    by_cases hlt : st.filtered.length < mr
    · cases hf : fO att with
      | raiseExc => simpa [searchLoop, hlt, hf, RunOut.state] using h
      | respNone => simpa [searchLoop, hlt, hf, RunOut.state] using h
      | parseError => simpa [searchLoop, hlt, hf, RunOut.state] using h
      | page rs =>
        cases rs with
        | nil => simpa [searchLoop, hlt, hf, RunOut.state] using h
        | cons r rs2 =>
          simp only [searchLoop, hlt, if_true, hf]
          exact ih _ _ _ _ u (processPage_seen_mono pO qd mr (r :: rs2) st u h)
    · simpa [searchLoop, hlt, RunOut.state] using h

theorem searchLoop_trace (fO : Nat → FetchOutcome) (pO : String → ProbeOutcome)
    (qd : List String) (mr ps : Nat) : ∀ (fuel off att : Nat) (st : SearchState)
    (evs : List Event), (probeUrls evs).Nodup →
    (∀ u ∈ probeUrls evs, u ∈ st.seen ∧ strStartsWith u "http" = true) →
    (probeUrls (searchLoop fO pO qd mr ps fuel off att st evs).events).Nodup ∧
      ∀ u ∈ probeUrls (searchLoop fO pO qd mr ps fuel off att st evs).events,
        u ∈ (searchLoop fO pO qd mr ps fuel off att st evs).state.seen ∧
          strStartsWith u "http" = true := by
  intro fuel
  induction fuel with
  | zero =>
    intro off att st evs hn hm
    simpa [searchLoop, RunOut.state, RunOut.events] using ⟨hn, hm⟩
  | succ n ih =>
    intro off att st evs hn hm
    by_cases hlt : st.filtered.length < mr
    · cases hf : fO att with
      | raiseExc =>
        simp only [searchLoop, hlt, if_true, hf, RunOut.state, RunOut.events]
        constructor
        · simpa [probeUrls_append, probeUrls] using hn
        · intro u hu
          exact hm u (by simpa [probeUrls_append, probeUrls] using hu)
      | respNone =>
        simp only [searchLoop, hlt, if_true, hf, RunOut.state, RunOut.events]
        constructor
        · simpa [probeUrls_append, probeUrls] using hn
        · intro u hu
          exact hm u (by simpa [probeUrls_append, probeUrls] using hu)
      | parseError =>
        simp only [searchLoop, hlt, if_true, hf, RunOut.state, RunOut.events]
        constructor
        · simpa [probeUrls_append, probeUrls] using hn
        · intro u hu
          exact hm u (by simpa [probeUrls_append, probeUrls] using hu)
      | page rs =>
        cases rs with
        | nil =>
          simp only [searchLoop, hlt, if_true, hf, RunOut.state, RunOut.events]
          constructor
          · simpa [probeUrls_append, probeUrls] using hn
          · intro u hu
            exact hm u (by simpa [probeUrls_append, probeUrls] using hu)
        | cons r rs2 =>
          simp only [searchLoop, hlt, if_true, hf]
          obtain ⟨pn, pm⟩ := processPage_events pO qd mr (r :: rs2) st
          refine ih _ _ _ _ ?_ ?_
          · simp only [probeUrls_append, probeUrls, List.append_nil]
            refine List.Nodup.append hn pn ?_
            intro a ha hb
            exact (pm a hb).1 (hm a ha).1
          · intro u hu
            simp only [probeUrls_append, probeUrls, List.append_nil] at hu
            rcases List.mem_append.mp hu with h | h
            · exact ⟨processPage_seen_mono pO qd mr (r :: rs2) st u (hm u h).1,
                (hm u h).2⟩
            · exact ⟨(pm u h).2.1, (pm u h).2.2⟩
    · simpa [searchLoop, hlt, RunOut.state, RunOut.events] using ⟨hn, hm⟩

theorem searchLoop_counters_mono (fO : Nat → FetchOutcome)
    (pO : String → ProbeOutcome) (qd : List String) (mr ps : Nat) :
    ∀ (fuel off att : Nat) (st : SearchState) (evs : List Event),
    st.droppedDead ≤ (searchLoop fO pO qd mr ps fuel off att st evs).state.droppedDead ∧
    st.droppedDomain ≤
      (searchLoop fO pO qd mr ps fuel off att st evs).state.droppedDomain := by
  intro fuel
  induction fuel with
  | zero => intro off att st evs; simp [searchLoop, RunOut.state]
  | succ n ih =>
    intro off att st evs
    by_cases hlt : st.filtered.length < mr
    · cases hf : fO att with
      | raiseExc => simp [searchLoop, hlt, hf, RunOut.state]
      | respNone => simp [searchLoop, hlt, hf, RunOut.state]
      | parseError => simp [searchLoop, hlt, hf, RunOut.state]
      | page rs =>
        cases rs with
        | nil => simp [searchLoop, hlt, hf, RunOut.state]
        | cons r rs2 =>
          simp only [searchLoop, hlt, if_true, hf]
          have hp := processPage_counters_mono pO qd mr (r :: rs2) st
          have hl := ih (off + ps) (att + 1) (processPage pO qd mr (r :: rs2) st).st
            (evs ++ [Event.fetch off] ++ (processPage pO qd mr (r :: rs2) st).evs)
          exact ⟨le_trans hp.1 hl.1, le_trans hp.2 hl.2⟩
    · simp [searchLoop, hlt, RunOut.state]


/-! ## Claim theorems -/

/-- C1: for every query, the list returned by `search` has length at most
`max_results`; the inner loop stops appending the moment the accepted count
reaches `max_results`, so even the un-truncated `filtered_results` never
exceeds the bound. -/
theorem claim_C1_upper_bound (fO : Nat → FetchOutcome)
    (pO : String → ProbeOutcome) (qd : List String) (mr : Nat)
    (l : List SearchResult) (h : search fO pO qd mr = Except.ok l) :
    l.length ≤ mr ∧ (searchRun fO pO qd mr).state.filtered.length ≤ mr := by
  have hs : (searchRun fO pO qd mr).state.filtered.length ≤ mr :=
    searchLoop_length_le fO pO qd mr mr maxAttempts 0 0 initState []
      (by simp [initState])
  refine ⟨?_, hs⟩
  unfold search at h
  cases hr : searchRun fO pO qd mr with
  | raised st evs => rw [hr] at h; cases h
  | done st evs =>
    rw [hr] at h
    have hl : st.filtered.take mr = l := by
      simpa using h
    rw [← hl]
    exact List.length_take_le mr st.filtered

/-- Witness for C1 at a concrete run. -/
theorem claim_C1_upper_bound_witness :
    ([⟨"t1", "https://a.example/1", "s1"⟩] : List SearchResult).length ≤ 1 ∧
      (searchRun fetchTwo probeLive [] 1).state.filtered.length ≤ 1 :=
  claim_C1_upper_bound fetchTwo probeLive [] 1 _ rfl

/-- C2: with a non-empty allow-list, every returned result's URL contains
at least one listed domain substring, compared case-insensitively. -/
theorem claim_C2_domain_conformance (fO : Nat → FetchOutcome)
    (pO : String → ProbeOutcome) (qd : List String) (mr : Nat)
    (l : List SearchResult) (r : SearchResult) (hqd : qd ≠ [])
    (h : search fO pO qd mr = Except.ok l) (hr : r ∈ l) :
    ∃ d ∈ qd, strContains (strLower r.href) (strLower d) = true := by
  have hg : GoodState pO qd (searchRun fO pO qd mr).state :=
    searchLoop_good fO pO qd mr mr maxAttempts 0 0 initState []
      (by simp [GoodState, initState])
  unfold search at h
  cases hrun : searchRun fO pO qd mr with
  | raised st evs => rw [hrun] at h; cases h
  | done st evs =>
    rw [hrun] at h hg
    have hl : st.filtered.take mr = l := by simpa using h
    have hmem : r ∈ st.filtered := List.take_subset mr st.filtered (hl ▸ hr)
    rcases hg.2.2.1 r hmem with he | ha
    · exact absurd he hqd
    · exact List.any_eq_true.mp ha

/-- Witness for C2 at a concrete run. -/
theorem claim_C2_domain_conformance_witness :
    ∃ d ∈ (["a.example"] : List String),
      strContains (strLower "https://a.example/1") (strLower d) = true :=
  claim_C2_domain_conformance fetchTwo probeLive ["a.example"] 2
    [⟨"t1", "https://a.example/1", "s1"⟩, ⟨"t2", "https://a.example/2", "s2"⟩]
    ⟨"t1", "https://a.example/1", "s1"⟩
    (List.cons_ne_nil _ _) rfl (by decide)

/-- C3: the URLs of the results returned by one invocation are pairwise
distinct (exact, case-sensitive comparison), and each returned URL was
recorded in the seen set. -/
theorem claim_C3_no_duplicates (fO : Nat → FetchOutcome)
    (pO : String → ProbeOutcome) (qd : List String) (mr : Nat)
    (l : List SearchResult) (h : search fO pO qd mr = Except.ok l) :
    (l.map SearchResult.href).Nodup ∧
      ∀ x ∈ l, x.href ∈ (searchRun fO pO qd mr).state.seen := by
  have hg : GoodState pO qd (searchRun fO pO qd mr).state :=
    searchLoop_good fO pO qd mr mr maxAttempts 0 0 initState []
      (by simp [GoodState, initState])
  unfold search at h
  cases hrun : searchRun fO pO qd mr with
  | raised st evs => rw [hrun] at h; cases h
  | done st evs =>
    rw [hrun] at h hg
    have hl : st.filtered.take mr = l := by simpa using h
    constructor
    · rw [← hl]
      exact hg.1.sublist ((List.take_sublist mr st.filtered).map SearchResult.href)
    · intro x hx
      exact hg.2.1 x (List.take_subset mr st.filtered (hl ▸ hx))

/-- Witness for C3 at a concrete run. -/
theorem claim_C3_no_duplicates_witness :
    (([⟨"t1", "https://a.example/1", "s1"⟩, ⟨"t2", "https://a.example/2", "s2"⟩] :
        List SearchResult).map SearchResult.href).Nodup ∧
      ∀ x ∈ ([⟨"t1", "https://a.example/1", "s1"⟩,
          ⟨"t2", "https://a.example/2", "s2"⟩] : List SearchResult),
        x.href ∈ (searchRun fetchTwo probeLive [] 2).state.seen :=
  claim_C3_no_duplicates fetchTwo probeLive [] 2 _ rfl

/-- C4: one invocation of `search` issues at most `max_attempts = 5`
paginated fetch requests, whatever the backend returns; the fetch loop in
the embedding is a total function, so it always terminates. -/
theorem claim_C4_attempt_ceiling (fO : Nat → FetchOutcome)
    (pO : String → ProbeOutcome) (qd : List String) (mr : Nat) :
    fetchCount (searchRun fO pO qd mr).events ≤ 5 := by
  have hb := searchLoop_fetchBound fO pO qd mr mr maxAttempts 0 0 initState []
  simpa [fetchCount, maxAttempts] using hb

/-- C5 counterexample: a candidate whose URL does not begin with `"http"`
is NOT rejected — it is accepted without ever being probed, and appears in
the returned results with a scheme-less URL. -/
theorem claim_C5_counterexample :
    search fetchSchemeless probeLive [] 1 =
      Except.ok [⟨"T", "www.example.com/a", "S"⟩] ∧
    strStartsWith "www.example.com/a" "http" = false ∧
    probeUrls (searchRun fetchSchemeless probeLive [] 1).events = [] :=
  ⟨rfl, rfl, rfl⟩

/-- C5 (amended): only URLs beginning with `"http"` are ever probed; a
candidate whose URL does not begin with `"http"` skips the liveness probe
entirely (and, having passed the earlier filters, is accepted unprobed). -/
theorem claim_C5_amended_probe_guard (fO : Nat → FetchOutcome)
    (pO : String → ProbeOutcome) (qd : List String) (mr : Nat) (u : String)
    (h : u ∈ probeUrls (searchRun fO pO qd mr).events) :
    strStartsWith u "http" = true := by
  have ht := searchLoop_trace fO pO qd mr mr maxAttempts 0 0 initState []
    (by simp [probeUrls]) (by simp [probeUrls])
  exact (ht.2 u h).2

/-- Witness for the amended C5 at a concrete run. -/
theorem claim_C5_amended_probe_guard_witness :
    strStartsWith "https://a.example/1" "http" = true :=
  claim_C5_amended_probe_guard fetchTwo probeLive [] 1 "https://a.example/1"
    (by decide)

/-- C6 counterexample: a fetch attempt that raises (network error) does NOT
terminate the loop gracefully — the exception crosses the `search` boundary. -/
theorem claim_C6_counterexample :
    search fetchRaise probeLive [] 3 = Except.error () := rfl

/-- C6 (amended): a fetch attempt that yields no usable body (`resp is
None`, a malformed/non-2xx body failing the parse, or a page with zero
entries) terminates the fetch loop immediately, keeping state and returning
normally — in particular an empty first page yields `ok []` — but a fetch
attempt that raises propagates the exception out of `search`. -/
theorem claim_C6_amended_failure_breaks (fO : Nat → FetchOutcome)
    (pO : String → ProbeOutcome) (qd : List String) (mr : Nat) :
    (∀ (fuel off att : Nat) (st : SearchState) (evs : List Event),
      st.filtered.length < mr →
      (fO att = FetchOutcome.respNone ∨ fO att = FetchOutcome.parseError ∨
        fO att = FetchOutcome.page []) →
      searchLoop fO pO qd mr mr (fuel + 1) off att st evs =
        RunOut.done st (evs ++ [Event.fetch off])) ∧
    (fO 0 = FetchOutcome.page [] → 0 < mr →
      search fO pO qd mr = Except.ok []) ∧
    (fO 0 = FetchOutcome.raiseExc → 0 < mr →
      search fO pO qd mr = Except.error ()) := by
  refine ⟨fun fuel off att st evs hlt hf =>
    searchLoop_break fO pO qd mr mr fuel off att st evs hlt hf, ?_, ?_⟩
  · intro he hmr
    have hb := searchLoop_break fO pO qd mr mr 4 0 0 initState []
      (by simpa [initState] using hmr) (Or.inr (Or.inr he))
    unfold search searchRun
    rw [show maxAttempts = 4 + 1 from rfl, hb]
    simp [initState]
  · intro he hmr
    have hlt : initState.filtered.length < mr := by simpa [initState] using hmr
    unfold search searchRun
    rw [show maxAttempts = 4 + 1 from rfl]
    simp [searchLoop, hlt, he]

/-- Witness for the amended C6 at concrete runs. -/
theorem claim_C6_amended_failure_breaks_witness :
    searchLoop fetchEmpty probeLive [] 1 1 (0 + 1) 0 0 initState [] =
      RunOut.done initState ([] ++ [Event.fetch 0]) ∧
    search fetchEmpty probeLive [] 1 = Except.ok [] := by
  obtain ⟨h1, h2, h3⟩ := claim_C6_amended_failure_breaks fetchEmpty probeLive [] 1
  exact ⟨h1 0 0 0 initState [] (by decide) (Or.inr (Or.inr rfl)),
    h2 rfl (by decide)⟩

/-- C7 counterexample: a blocked-source (youtube) rejection happens — the
candidate is dropped from the results — yet the `dropped_domain` counter
stays 0 (and so does `dropped_dead`): blocked-source rejections are not
counted at all, and no counter for the blocked-source or duplicate reasons
exists. -/
theorem claim_C7_counterexample :
    (searchRun fetchYt probeLive [] 1).state.droppedDomain = 0 ∧
    (searchRun fetchYt probeLive [] 1).state.droppedDead = 0 ∧
    search fetchYt probeLive [] 1 = Except.ok [] :=
  ⟨rfl, rfl, rfl⟩

/-- C7 (amended): the two rejection counters the code maintains —
`dropped_dead` (dead links) and `dropped_domain` (allow-list mismatches) —
only increase and are never reset within one invocation of the loop;
blocked-source and duplicate rejections are not counted. -/
theorem claim_C7_amended_counters_monotone (fO : Nat → FetchOutcome)
    (pO : String → ProbeOutcome) (qd : List String) (mr ps fuel off att : Nat)
    (st : SearchState) (evs : List Event) :
    st.droppedDead ≤
      (searchLoop fO pO qd mr ps fuel off att st evs).state.droppedDead ∧
    st.droppedDomain ≤
      (searchLoop fO pO qd mr ps fuel off att st evs).state.droppedDomain :=
  searchLoop_counters_mono fO pO qd mr ps fuel off att st evs

/-- C8: absence of the `BING_API_KEY` environment variable makes
construction fail with the configuration error (before anything else —
`__init__` performs no network call); with the variable present,
construction succeeds and stores the retrieved key in `api_key`. -/
theorem claim_C8_credential (q : String) (d : Option (List String)) :
    construct none q d = Except.error apiKeyMissingMsg ∧
    ∀ k, ∃ b, construct (some k) q d = Except.ok b ∧ b.api_key = k :=
  ⟨rfl, fun k => ⟨⟨q, normDomains d, k⟩, rfl, rfl⟩⟩

/-- C9: once the accepted count has reached `max_results`, the loop issues
no further fetch (first conjunct: the while-condition fails at once, adding
no events), and within a page the `break` fires the moment the count is
reached: the state and events of the full page equal those of the examined
prefix alone, so the leftover candidates are never probed. -/
theorem claim_C9_early_termination (fO : Nat → FetchOutcome)
    (pO : String → ProbeOutcome) (qd : List String) (mr ps : Nat) :
    (∀ (fuel off att : Nat) (st : SearchState) (evs : List Event),
      mr ≤ st.filtered.length →
      searchLoop fO pO qd mr ps fuel off att st evs = RunOut.done st evs) ∧
    (∀ (rs : List RawResult) (st : SearchState),
      (processPage pO qd mr rs st).left ≠ [] →
      mr ≤ (processPage pO qd mr rs st).st.filtered.length ∧
      ∃ pre, rs = pre ++ (processPage pO qd mr rs st).left ∧
        processPage pO qd mr pre st =
          ⟨(processPage pO qd mr rs st).st, (processPage pO qd mr rs st).evs,
            []⟩) :=
  ⟨fun fuel off att st evs h => searchLoop_stop fO pO qd mr ps fuel off att st evs h,
   fun rs st h => ⟨processPage_left_max pO qd mr rs st h,
     processPage_examined pO qd mr rs st⟩⟩

/-- Witness for C9 at a concrete run: with one accepted result and
`max_results = 1`, the loop stops at once, and processing the two-candidate
page stops after the first acceptance, leaving the second unexamined. -/
theorem claim_C9_early_termination_witness :
    searchLoop fetchTwo probeLive [] 1 1 5 1 1 stOneFull [] =
      RunOut.done stOneFull [] ∧
    (1 ≤ (processPage probeLive [] 1 pageTwo initState).st.filtered.length ∧
      ∃ pre, pageTwo = pre ++ (processPage probeLive [] 1 pageTwo initState).left ∧
        processPage probeLive [] 1 pre initState =
          ⟨(processPage probeLive [] 1 pageTwo initState).st,
            (processPage probeLive [] 1 pageTwo initState).evs, []⟩) := by
  obtain ⟨h1, h2⟩ := claim_C9_early_termination fetchTwo probeLive [] 1 1
  exact ⟨h1 5 1 1 stOneFull [] (by decide), h2 pageTwo initState (by decide)⟩

/-- C10: a URL is added to `seen_urls` before its probe runs, so each URL
is probed at most once per invocation (the probed URLs are pairwise
distinct), every probed URL ends up in the seen set, and a URL whose probe
fails never appears among the accepted results. -/
theorem claim_C10_seen_before_probe (fO : Nat → FetchOutcome)
    (pO : String → ProbeOutcome) (qd : List String) (mr : Nat) :
    (probeUrls (searchRun fO pO qd mr).events).Nodup ∧
    (∀ u ∈ probeUrls (searchRun fO pO qd mr).events,
      u ∈ (searchRun fO pO qd mr).state.seen) ∧
    (∀ u ∈ probeUrls (searchRun fO pO qd mr).events,
      probeFails (pO u) = true →
      u ∉ (searchRun fO pO qd mr).state.filtered.map SearchResult.href) := by
  have ht := searchLoop_trace fO pO qd mr mr maxAttempts 0 0 initState []
    (by simp [probeUrls]) (by simp [probeUrls])
  have hg := searchLoop_good fO pO qd mr mr maxAttempts 0 0 initState []
    (by simp [GoodState, initState])
  refine ⟨ht.1, fun u hu => (ht.2 u hu).1, ?_⟩
  intro u hu hfail hmem
  obtain ⟨x, hx, hxh⟩ := List.mem_map.mp hmem
  have hhttp : strStartsWith x.href "http" = true := hxh ▸ (ht.2 u hu).2
  have hok : probeFails (pO x.href) = false := hg.2.2.2 x hx hhttp
  rw [hxh] at hok
  rw [hok] at hfail
  cases hfail

/-- Witness for C10 at a concrete run: the flaky URL is probed (provably,
by evaluation), its probe fails, and it is absent from the results. -/
theorem claim_C10_seen_before_probe_witness :
    "https://flaky.example/x" ∉
      (searchRun fetchFlaky probeDead [] 2).state.filtered.map
        SearchResult.href :=
  (claim_C10_seen_before_probe fetchFlaky probeDead [] 2).2.2
    "https://flaky.example/x" (by decide) (by decide)

end Bing
